import Mathlib

/-!
Shallow embedding of `create_new_member_ext.py`: a script that reads a
FirstLogic fixed-width format descriptor, reconciles its column names
against the authoritative `COPE.NEW_MEMBER` schema, and renders the DDL
for an Oracle external table.

Strings are Lean `String`s, Python sets of column names are `Finset String`,
Python integers are `Int`, and the script's control flow (including the
`sys.exit()` / `exit()` terminations and the order of collaborator calls)
is made explicit as a `runProgram` function over an environment record.
-/

/-- Helper for `pySplitComma`: walk the characters, cutting at each comma. -/
def splitCommaAux : List Char → List Char → List String
  | [], cur => [String.mk cur.reverse]
  | c :: cs, cur =>
    if c = ',' then String.mk cur.reverse :: splitCommaAux cs []
    else splitCommaAux cs (c :: cur)

/-- Python `line.split(',')`: always returns at least one piece; a trailing
comma yields a trailing empty piece. -/
def pySplitComma (s : String) : List String := splitCommaAux s.toList []

/-- Python `s.upper()` (ASCII case mapping, as in the data this script sees). -/
def pyUpper (s : String) : String := String.mk (s.toList.map Char.toUpper)

/-- Python `s.lower()` (ASCII case mapping, as in the data this script sees). -/
def pyLower (s : String) : String := String.mk (s.toList.map Char.toLower)

/-- Whitespace characters stripped by Python's `int()` before parsing. -/
def isPySpace (c : Char) : Bool :=
  c == ' ' || c == '\t' || c == '\n' || c == '\r' || c == '\x0c' || c == '\x0b'

/-- Python `int(s)` on a string: strip surrounding whitespace, allow an
optional sign, then require a nonempty run of decimal digits.  Returns
`none` where Python raises `ValueError`. -/
def pyInt (s : String) : Option Int :=
  let t := (((s.toList.dropWhile isPySpace).reverse.dropWhile isPySpace).reverse)
  match t with
  | [] => none
  | c :: rest =>
    let signed : Bool × List Char :=
      if c == '-' then (true, rest)
      else if c == '+' then (false, rest)
      else (false, c :: rest)
    if signed.2 = [] then none
    else if signed.2.all Char.isDigit then
      let n : Nat := signed.2.foldl (fun acc d => acc * 10 + (d.toNat - 48)) 0
      some (if signed.1 then -(n : Int) else (n : Int))
    else none

/-- One parsed descriptor line: `name, length = parts[0].upper(), int(parts[1])`. -/
structure FmtLine where
  name : String
  len : Int
deriving Repr, DecidableEq

/-- Parse one descriptor line exactly as the loop body does:
`parts = line.split(',')`, then `parts[0].upper()` and `int(parts[1])`.
`none` models the `IndexError` (no second field) or `ValueError`
(non-integer length) that the surrounding `try` turns into a fatal error. -/
def parseLine (line : String) : Option FmtLine :=
  match pySplitComma line with
  | [] => none
  | [_] => none
  | p0 :: p1 :: _ => (pyInt p1).map fun n => { name := pyUpper p0, len := n }

/-- One column as accumulated by `collect_columns`: the uppercased name, the
declared length, the `CHAR`/`BYTE` unit, and the 1-based offset range
`first = offset + 1`, `last = offset + length`. -/
structure ColEntry where
  name : String
  len : Int
  charUsed : String
  first : Int
  last : Int
deriving Repr, DecidableEq

/-- Result of the descriptor-reading loop: either the ordered column entries,
or the fatal parse error handled by `except Exception` / `log_and_quit`. -/
inductive LoopResult where
  | ok (entries : List ColEntry) : LoopResult
  | parseError : LoopResult
deriving Repr, DecidableEq

/-- The column entry built by one non-sentinel loop iteration: the unit is
`CHAR` when the (already uppercased) name is in the character-semantics set,
else `BYTE`; `first = offset + 1`, `last = offset + length`. -/
def entryOf (char_columns : Finset String) (offset : Int) (fl : FmtLine) : ColEntry :=
  { name := fl.name, len := fl.len,
    charUsed := if fl.name ∈ char_columns then "CHAR" else "BYTE",
    first := offset + 1, last := offset + fl.len }

/-- The `for line in ifh` loop of `collect_columns`: split each line, stop at
the `EOR` sentinel (tested only after the length has been parsed), tag the
unit from the character-semantics set, and accumulate cumulative offsets. -/
def collect_columns_loop (char_columns : Finset String) :
    List String → Int → List ColEntry → LoopResult
  | [], _, acc => .ok acc.reverse
  | line :: rest, offset, acc =>
    match parseLine line with
    | none => .parseError
    | some fl =>
      if fl.name = "EOR" then .ok acc.reverse
      else
        collect_columns_loop char_columns rest (offset + fl.len)
          (entryOf char_columns offset fl :: acc)

/-- The set `all_columns` built by the loop (`all_columns.add(name.upper())`;
`name` is already uppercased). -/
def allColumnsOf (entries : List ColEntry) : Finset String :=
  (entries.map ColEntry.name).toFinset

/-- Python's `db_columns ^ all_columns` on sets of names. -/
def pySymmDiff (a b : Finset String) : Finset String := (a \ b) ∪ (b \ a)

/-- One row of the `columns_with_lengths` fragment:
`f'NAME VARCHAR2(length CHAR|BYTE)'`. -/
def renderLength (e : ColEntry) : String :=
  e.name ++ " VARCHAR2(" ++ toString e.len ++ " " ++ e.charUsed ++ ")"

/-- One row of the `columns_with_offsets` fragment:
`f'"NAME"\tPOSITION(first:last)'`. -/
def renderOffset (e : ColEntry) : String :=
  "\"" ++ e.name ++ "\"\tPOSITION(" ++ toString e.first ++ ":" ++ toString e.last ++ ")"

/-- Whether the loop result triggers the discrepancy report: after a
successful parse the script tests `db_columns ^ all_columns` for emptiness
(nonempty means print-and-exit); a parse failure aborts before the check. -/
def reportOf (db_columns : Finset String) : LoopResult → Bool
  | .ok entries => if pySymmDiff db_columns (allColumnsOf entries) = ∅ then false else true
  | .parseError => false

/-- Whether `collect_columns` reports a column discrepancy for a descriptor. -/
def reportsDiscrepancy (char_columns db_columns : Finset String)
    (lines : List String) : Bool :=
  reportOf db_columns (collect_columns_loop char_columns lines 0 [])

/-- Two loop results that the discrepancy check cannot tell apart: both are
parse failures, or both succeed with the same set of column names. -/
def ReportEquiv : LoopResult → LoopResult → Prop
  | .parseError, .parseError => True
  | .ok es1, .ok es2 => allColumnsOf es1 = allColumnsOf es2
  | _, _ => False

/-- True when the line is not a successfully parsed `EOR` sentinel (it either
fails to parse, or parses with a name other than `EOR`). -/
def noEorLine (l : String) : Bool :=
  match parseLine l with
  | some fl => fl.name != "EOR"
  | none => true

/-- Outcome of `collect_columns`: the two joined fragments on success, or one
of its two abort paths (`log_and_quit` on exception, print-and-`exit()` on a
reconciliation discrepancy). `descriptor` is `none` when `open(fmt_path)`
raises (file missing), which the same `except` clause turns into
`log_and_quit`. -/
inductive CollectOutcome where
  | ok (columns_with_lengths columns_with_offsets : String) : CollectOutcome
  | parseAbort : CollectOutcome
  | discrepancyAbort (discrepancies : Finset String) : CollectOutcome
deriving DecidableEq

/-- The whole of `collect_columns`, lines 94-131 of the script. -/
def collect_columns (descriptor : Option (List String))
    (char_columns db_columns : Finset String) : CollectOutcome :=
  match descriptor with
  | none => .parseAbort
  | some lines =>
    match collect_columns_loop char_columns lines 0 [] with
    | .parseError => .parseAbort
    | .ok entries =>
      let discrepancies := pySymmDiff db_columns (allColumnsOf entries)
      if discrepancies = ∅ then
        .ok (String.intercalate ",\n    " (entries.map renderLength))
            (String.intercalate ",\n       " (entries.map renderOffset))
      else .discrepancyAbort discrepancies

/-- Table name as set in `expand_args`:
`args_dict['table_name'] = f'NEW_MEMBER_{affiliate_acronym}_EXT'`.
Note the acronym is interpolated exactly as given on the command line. -/
def table_name_of (affiliate_acronym : String) : String :=
  "NEW_MEMBER_" ++ affiliate_acronym ++ "_EXT"

/-- The `_TEMPLATE` string with its `%(...)s` placeholders substituted, as
performed by `_TEMPLATE % values` at the end of `gen_ddl`. -/
def renderTemplate (tname lc_tname directory_name file_name
    columns_with_lengths columns_with_offsets : String) : String :=
  "CREATE TABLE " ++ tname ++ "\n  (" ++ columns_with_lengths ++
  "\n  )\n  ORGANIZATION EXTERNAL\n   (TYPE ORACLE_LOADER\n    DEFAULT DIRECTORY " ++
  directory_name ++
  "\n    ACCESS PARAMETERS\n    ( records delimited by newline\n      badfile " ++
  directory_name ++ ":\x27" ++ lc_tname ++ ".bad\x27\n      logfile " ++
  directory_name ++ ":\x27" ++ lc_tname ++ ".log\x27\n      fields\n      (" ++
  columns_with_offsets ++ ")\n    )\n    LOCATION\n    ( \x27" ++ file_name ++
  "\x27\n    )\n  )\n  REJECT LIMIT UNLIMITED\n"

/-- The pure tail of `gen_ddl` (lines 136-145): given the affiliate acronym,
the Oracle directory name and the two fragments from `collect_columns`,
fill in the template.  `file_name` is `f'{acronym_lower}_good.txt'` and
`lc_table_name` is the lower-cased table name. -/
def gen_ddl_text (affiliate_acronym directory_name : String)
    (columns_with_lengths columns_with_offsets : String) : String :=
  let tname := table_name_of affiliate_acronym
  renderTemplate tname (pyLower tname) directory_name
    (pyLower affiliate_acronym ++ "_good.txt")
    columns_with_lengths columns_with_offsets

/-- Observable collaborator calls made during a run, in order. -/
inductive Event where
  | charSemanticsQuery : Event
  | allColumnsQuery : Event
  | openDescriptor : Event
  | createTableProc : Event
  | printDdl : Event
deriving Repr, DecidableEq

/-- Outcome of one invocation of the script: the collaborator calls it made,
the process exit status, whether a descriptive error message was emitted
(`logging.error`, the discrepancy `print`, or an uncaught traceback), and
the DDL text produced by `gen_ddl`, if any. -/
structure RunResult where
  events : List Event
  exitCode : Nat
  messaged : Bool
  ddl : Option String
deriving DecidableEq

/-- Environment of one invocation: command-line inputs, the state of the
configuration file, the descriptor file contents (`none` = missing or
unreadable), the two schema query answers, and failure switches for each
collaborator call. -/
structure Env where
  affiliate_acronym : String
  show_only : Bool
  dbconfigExists : Bool
  hasDatabaseSection : Bool
  hasAllOptions : Bool
  directory_name : String
  connectFails : Bool
  charQueryFails : Bool
  allColumnsQueryFails : Bool
  descriptor : Option (List String)
  char_columns : Finset String
  db_columns : Finset String
  createProcFails : Bool

/-- The script's top-level control flow (lines 184-198 plus the bodies of
`expand_args`, `gen_ddl`, `collect_columns` and `create_table`):
`expand_args` validates the configuration (each failure is `log_and_quit`,
i.e. `logging.error` then `sys.exit()` with default status 0); `get_cursor`
connects (an uncaught `cx_Oracle` error exits with status 1); `gen_ddl`
issues the character-semantics query, then the all-columns query, then opens
and parses the descriptor; a parse failure is `log_and_quit` (status 0); a
reconciliation discrepancy prints the names and calls `exit()` (status 0);
otherwise the DDL is rendered and either printed (`--show-only`) or passed
to the `create_or_replace_external_table` procedure. -/
def runProgram (env : Env) : RunResult :=
  if env.dbconfigExists = false then
    { events := [], exitCode := 0, messaged := true, ddl := none }
  else if env.hasDatabaseSection = false then
    { events := [], exitCode := 0, messaged := true, ddl := none }
  else if env.hasAllOptions = false then
    { events := [], exitCode := 0, messaged := true, ddl := none }
  else if env.connectFails = true then
    { events := [], exitCode := 1, messaged := true, ddl := none }
  else if env.charQueryFails = true then
    { events := [.charSemanticsQuery], exitCode := 1, messaged := true, ddl := none }
  else if env.allColumnsQueryFails = true then
    { events := [.charSemanticsQuery, .allColumnsQuery], exitCode := 1,
      messaged := true, ddl := none }
  else
    let pre := [Event.charSemanticsQuery, Event.allColumnsQuery, Event.openDescriptor]
    match collect_columns env.descriptor env.char_columns env.db_columns with
    | .parseAbort =>
      { events := pre, exitCode := 0, messaged := true, ddl := none }
    | .discrepancyAbort _ =>
      { events := pre, exitCode := 0, messaged := true, ddl := none }
    | .ok withLengths withOffsets =>
      let ddl := gen_ddl_text env.affiliate_acronym env.directory_name
        withLengths withOffsets
      if env.show_only = true then
        { events := pre ++ [.printDdl], exitCode := 0, messaged := false, ddl := some ddl }
      else if env.createProcFails = true then
        { events := pre ++ [.createTableProc], exitCode := 1, messaged := true,
          ddl := some ddl }
      else
        { events := pre ++ [.createTableProc], exitCode := 0, messaged := false,
          ddl := some ddl }

/-- Prefix a loop result's entry list (used to restate the loop's accumulator
recursion without the accumulator). -/
def LoopResult.prepend (front : List ColEntry) : LoopResult → LoopResult
  | .ok t => .ok (front ++ t)
  | .parseError => .parseError

/-- Apply a function to the entries of a successful loop result. -/
def LoopResult.mapOk (f : List ColEntry → List ColEntry) : LoopResult → LoopResult
  | .ok t => .ok (f t)
  | .parseError => .parseError

/-- Shift an entry's offset range by a constant. -/
def shiftEntry (d : Int) (e : ColEntry) : ColEntry :=
  { e with first := e.first + d, last := e.last + d }

/-- The offset-range invariant of the parser, relative to a starting offset:
the head range starts at `off + 1`, each range ends `length` bytes after the
running offset, and the tail continues from that end. -/
def Contiguous : Int → List ColEntry → Prop
  | _, [] => True
  | off, e :: rest => e.first = off + 1 ∧ e.last = off + e.len ∧ Contiguous e.last rest

/-- A concrete sample descriptor used in the concrete witnesses below. -/
def sampleLines : List String := ["NAME,10", "ADDR,20", "EOR,0"]

/-- The entries `collect_columns_loop` produces for `sampleLines` with no
character-semantics columns. -/
def sampleEntries : List ColEntry :=
  [{ name := "NAME", len := 10, charUsed := "BYTE", first := 1, last := 10 },
   { name := "ADDR", len := 20, charUsed := "BYTE", first := 11, last := 30 }]

/-- A concrete healthy environment used as the base of the concrete runs in
the witnesses and counterexamples below. -/
def baseEnv : Env :=
  { affiliate_acronym := "IL", show_only := false, dbconfigExists := true,
    hasDatabaseSection := true, hasAllOptions := true, directory_name := "EXT_DIR",
    connectFails := false, charQueryFails := false, allColumnsQueryFails := false,
    descriptor := some ["NAME,10", "ADDR,20", "EOR,0"],
    char_columns := ∅, db_columns := {"NAME", "ADDR"}, createProcFails := false }

theorem collect_columns_loop_acc (ch : Finset String) (lines : List String) :
    ∀ (off : Int) (acc : List ColEntry),
      collect_columns_loop ch lines off acc =
        LoopResult.prepend acc.reverse (collect_columns_loop ch lines off []) := by
  induction lines with
  | nil =>
    intro off acc
    simp [collect_columns_loop, LoopResult.prepend]
  | cons l rest ih =>
    intro off acc
    simp only [collect_columns_loop]
    cases hp : parseLine l with
    | none => simp [LoopResult.prepend]
    | some fl =>
      by_cases he : fl.name = "EOR"
      · simp [he, LoopResult.prepend]
      · simp only [he, if_false]
        rw [ih (off + fl.len) (entryOf ch off fl :: acc),
            ih (off + fl.len) [entryOf ch off fl]]
        cases collect_columns_loop ch rest (off + fl.len) [] with
        | ok t => simp [LoopResult.prepend]
        | parseError => simp [LoopResult.prepend]

theorem collect_columns_loop_cons (ch : Finset String) (l : String)
    (rest : List String) (off : Int) (fl : FmtLine)
    (hp : parseLine l = some fl) (he : fl.name ≠ "EOR") :
    collect_columns_loop ch (l :: rest) off [] =
      LoopResult.prepend [entryOf ch off fl]
        (collect_columns_loop ch rest (off + fl.len) []) := by
  simp only [collect_columns_loop, hp]
  simp only [he, if_false]
  rw [collect_columns_loop_acc]
  simp

theorem collect_columns_loop_eor (ch : Finset String) (l : String)
    (rest : List String) (off : Int) (acc : List ColEntry) (fl : FmtLine)
    (hp : parseLine l = some fl) (he : fl.name = "EOR") :
    collect_columns_loop ch (l :: rest) off acc = .ok acc.reverse := by
  simp [collect_columns_loop, hp, he]

theorem collect_columns_loop_err (ch : Finset String) (l : String)
    (rest : List String) (off : Int) (acc : List ColEntry)
    (hp : parseLine l = none) :
    collect_columns_loop ch (l :: rest) off acc = .parseError := by
  simp [collect_columns_loop, hp]

theorem collect_columns_loop_contiguous (ch : Finset String) :
    ∀ (lines : List String) (off : Int) (entries : List ColEntry),
      collect_columns_loop ch lines off [] = .ok entries →
      Contiguous off entries := by
  intro lines
  induction lines with
  | nil =>
    intro off entries h
    have he : entries = [] := by simpa [collect_columns_loop] using h.symm
    subst he
    trivial
  | cons l rest ih =>
    intro off entries h
    cases hp : parseLine l with
    | none => rw [collect_columns_loop_err ch l rest off [] hp] at h; exact absurd h (by simp)
    | some fl =>
      by_cases he : fl.name = "EOR"
      · rw [collect_columns_loop_eor ch l rest off [] fl hp he] at h
        cases h
        simp [Contiguous]
      · rw [collect_columns_loop_cons ch l rest off fl hp he] at h
        cases hr : collect_columns_loop ch rest (off + fl.len) [] with
        | parseError => rw [hr] at h; exact absurd h (by simp [LoopResult.prepend])
        | ok t =>
          rw [hr] at h
          simp only [LoopResult.prepend] at h
          cases h
          refine ⟨rfl, rfl, ?_⟩
          have : (entryOf ch off fl).last = off + fl.len := rfl
          rw [this]
          exact ih (off + fl.len) t hr

theorem contiguous_last_eq (entries : List ColEntry) :
    ∀ (off : Int), Contiguous off entries →
      ∀ e ∈ entries, e.last = e.first + e.len - 1 := by
  induction entries with
  | nil => intro off _ e he; cases he
  | cons a rest ih =>
    intro off hc e he
    obtain ⟨h1, h2, h3⟩ := hc
    cases he with
    | head => rw [h2, h1]; ring
    | tail _ hmem => exact ih a.last h3 e hmem

theorem contiguous_head_first (entries : List ColEntry) (off : Int)
    (hc : Contiguous off entries) (h : 0 < entries.length) :
    (entries.get ⟨0, h⟩).first = off + 1 := by
  cases entries with
  | nil => cases h
  | cons a rest => exact hc.1

theorem contiguous_adjacent (entries : List ColEntry) :
    ∀ (off : Int), Contiguous off entries →
      ∀ (i : Nat) (h : i + 1 < entries.length),
        (entries.get ⟨i + 1, h⟩).first =
          (entries.get ⟨i, Nat.lt_of_succ_lt h⟩).last + 1 := by
  induction entries with
  | nil => intro off _ i h; cases h
  | cons a rest ih =>
    intro off hc i h
    obtain ⟨h1, h2, h3⟩ := hc
    cases i with
    | zero =>
      have hr : 0 < rest.length := by
        simpa using Nat.lt_of_succ_lt_succ h
      have := contiguous_head_first rest a.last h3 hr
      simpa using this
    | succ j =>
      have h2' : j + 1 < rest.length := by
        simpa using Nat.lt_of_succ_lt_succ h
      have := ih a.last h3 j h2'
      simpa using this

/-- C1: for every valid descriptor (each parsed column carrying a positive
integer length), the offset ranges produced by `collect_columns` are
contiguous and non-overlapping: the first range starts at 1, every range
satisfies `last = first + length - 1` (hence spans exactly `length` bytes),
each subsequent range starts at the previous range's `last + 1`, and each
range is nonempty (`first ≤ last`). -/
theorem collect_columns_offsets_contiguous (ch : Finset String)
    (lines : List String) (entries : List ColEntry)
    (hok : collect_columns_loop ch lines 0 [] = .ok entries)
    (hpos : ∀ e ∈ entries, 0 < e.len) :
    (∀ (h : 0 < entries.length), (entries.get ⟨0, h⟩).first = 1) ∧
    (∀ e ∈ entries, e.last = e.first + e.len - 1) ∧
    (∀ (i : Nat) (h : i + 1 < entries.length),
      (entries.get ⟨i + 1, h⟩).first =
        (entries.get ⟨i, Nat.lt_of_succ_lt h⟩).last + 1) ∧
    (∀ e ∈ entries, e.first ≤ e.last) := by
  have hc := collect_columns_loop_contiguous ch lines 0 entries hok
  refine ⟨?_, contiguous_last_eq entries 0 hc, contiguous_adjacent entries 0 hc, ?_⟩
  · intro h
    have := contiguous_head_first entries 0 hc h
    simpa using this
  · intro e he
    have h1 := contiguous_last_eq entries 0 hc e he
    have h2 := hpos e he
    omega

/-- Witness for C1: the concrete descriptor `NAME,10 / ADDR,20 / EOR,0`
parses to the two entries `NAME:1-10`, `ADDR:11-30`, which satisfy the
contiguity conclusions. -/
theorem collect_columns_offsets_contiguous_witness :
    (collect_columns_loop ∅ sampleLines 0 [] = .ok sampleEntries) ∧
    ((∀ e ∈ sampleEntries, 0 < e.len) ∧
     ((∀ (h : 0 < sampleEntries.length), (sampleEntries.get ⟨0, h⟩).first = 1) ∧
      (∀ e ∈ sampleEntries, e.last = e.first + e.len - 1) ∧
      (∀ (i : Nat) (h : i + 1 < sampleEntries.length),
        (sampleEntries.get ⟨i + 1, h⟩).first =
          (sampleEntries.get ⟨i, Nat.lt_of_succ_lt h⟩).last + 1) ∧
      (∀ e ∈ sampleEntries, e.first ≤ e.last))) :=
  ⟨by decide, by decide,
   collect_columns_offsets_contiguous ∅ sampleLines sampleEntries
     (by decide) (by decide)⟩

theorem collect_columns_loop_charUsed (ch : Finset String) :
    ∀ (lines : List String) (off : Int) (entries : List ColEntry),
      collect_columns_loop ch lines off [] = .ok entries →
      ∀ e ∈ entries, e.charUsed = if e.name ∈ ch then "CHAR" else "BYTE" := by
  intro lines
  induction lines with
  | nil =>
    intro off entries h e he
    have hn : entries = [] := by simpa [collect_columns_loop] using h.symm
    subst hn
    cases he
  | cons l rest ih =>
    intro off entries h e he
    cases hp : parseLine l with
    | none =>
      rw [collect_columns_loop_err ch l rest off [] hp] at h
      exact absurd h (by simp)
    | some fl =>
      by_cases hne : fl.name = "EOR"
      · rw [collect_columns_loop_eor ch l rest off [] fl hp hne] at h
        cases h
        cases he
      · rw [collect_columns_loop_cons ch l rest off fl hp hne] at h
        cases hr : collect_columns_loop ch rest (off + fl.len) [] with
        | parseError =>
          rw [hr] at h
          exact absurd h (by simp [LoopResult.prepend])
        | ok t =>
          rw [hr] at h
          simp only [LoopResult.prepend] at h
          cases h
          cases he with
          | head => rfl
          | tail _ hmem => exact ih (off + fl.len) t hr e hmem

/-- C5: every parsed column's unit is `CHAR` exactly when its (uppercased)
name belongs to the character-semantics set handed to the parser, and `BYTE`
otherwise, and its row of the column-definition fragment is rendered as
`NAME VARCHAR2(length UNIT)` with that unit. -/
theorem column_unit_selection (ch : Finset String) (lines : List String)
    (entries : List ColEntry)
    (hok : collect_columns_loop ch lines 0 [] = .ok entries) :
    ∀ e ∈ entries,
      (e.charUsed = "CHAR" ↔ e.name ∈ ch) ∧
      (e.charUsed = "BYTE" ↔ e.name ∉ ch) ∧
      renderLength e = e.name ++ " VARCHAR2(" ++ toString e.len ++ " " ++
        (if e.name ∈ ch then "CHAR" else "BYTE") ++ ")" := by
  intro e he
  have hcu := collect_columns_loop_charUsed ch lines 0 entries hok e he
  by_cases hm : e.name ∈ ch
  · rw [if_pos hm] at hcu
    refine ⟨by simp [hcu, hm], by simp [hcu, hm], ?_⟩
    rw [if_pos hm, renderLength, hcu]
  · rw [if_neg hm] at hcu
    constructor
    · constructor
      · intro hc
        rw [hcu] at hc
        exact absurd hc (by decide)
      · intro hc
        exact absurd hc hm
    · refine ⟨by simp [hcu, hm], ?_⟩
      rw [if_neg hm, renderLength, hcu]

/-- Witness for C5: with character-semantics set `{CITY}`, the descriptor
`CITY,15 / ZIP,5 / EOR,0` renders `CITY` with unit `CHAR` and `ZIP` with
unit `BYTE`. -/
theorem column_unit_selection_witness :
    (collect_columns_loop {"CITY"} ["CITY,15", "ZIP,5", "EOR,0"] 0 [] =
      .ok [{ name := "CITY", len := 15, charUsed := "CHAR", first := 1, last := 15 },
           { name := "ZIP", len := 5, charUsed := "BYTE", first := 16, last := 20 }]) ∧
    (∀ e ∈ [({ name := "CITY", len := 15, charUsed := "CHAR", first := 1, last := 15 } : ColEntry),
            { name := "ZIP", len := 5, charUsed := "BYTE", first := 16, last := 20 }],
      (e.charUsed = "CHAR" ↔ e.name ∈ ({"CITY"} : Finset String)) ∧
      (e.charUsed = "BYTE" ↔ e.name ∉ ({"CITY"} : Finset String)) ∧
      renderLength e = e.name ++ " VARCHAR2(" ++ toString e.len ++ " " ++
        (if e.name ∈ ({"CITY"} : Finset String) then "CHAR" else "BYTE") ++ ")") :=
  ⟨by decide,
   column_unit_selection {"CITY"} ["CITY,15", "ZIP,5", "EOR,0"]
     [{ name := "CITY", len := 15, charUsed := "CHAR", first := 1, last := 15 },
      { name := "ZIP", len := 5, charUsed := "BYTE", first := 16, last := 20 }]
     (by decide)⟩

theorem parseLine_name (l : String) (fl : FmtLine) (h : parseLine l = some fl) :
    fl.name = pyUpper ((pySplitComma l).headD "") := by
  cases hs : pySplitComma l with
  | nil => simp [parseLine, hs] at h
  | cons p0 ps =>
    cases ps with
    | nil => simp [parseLine, hs] at h
    | cons p1 pr =>
      simp only [parseLine, hs] at h
      cases hn : pyInt p1 with
      | none => rw [hn] at h; cases h
      | some n =>
        rw [hn] at h
        have hfl : fl = { name := pyUpper p0, len := n } := by
          have h2 : some ({ name := pyUpper p0, len := n } : FmtLine) = some fl := h
          exact (Option.some_inj.mp h2).symm
        rw [hfl]
        rfl

/-- C6: for any descriptor in which some line's first comma-separated field
uppercases to `EOR`, processing stops at the first such line: the loop's
result does not depend on anything after that line, and whenever it
succeeds it returns exactly the columns collected from the lines before the
sentinel (so no later column reaches the name set or either fragment). -/
theorem eor_sentinel_stops_parsing (ch : Finset String) (pre : List String)
    (eorLine : String) (post post2 : List String)
    (heor : pyUpper ((pySplitComma eorLine).headD "") = "EOR") :
    ∀ (off : Int) (acc : List ColEntry),
      collect_columns_loop ch (pre ++ eorLine :: post) off acc =
        collect_columns_loop ch (pre ++ eorLine :: post2) off acc ∧
      (∀ entries, collect_columns_loop ch (pre ++ eorLine :: post) off acc = .ok entries →
        collect_columns_loop ch pre off acc = .ok entries) := by
  induction pre with
  | nil =>
    intro off acc
    simp only [List.nil_append]
    cases hp : parseLine eorLine with
    | none =>
      rw [collect_columns_loop_err ch eorLine post off acc hp,
          collect_columns_loop_err ch eorLine post2 off acc hp]
      exact ⟨rfl, fun entries h => absurd h (by simp)⟩
    | some fl =>
      have hname : fl.name = "EOR" := by rw [parseLine_name eorLine fl hp, heor]
      rw [collect_columns_loop_eor ch eorLine post off acc fl hp hname,
          collect_columns_loop_eor ch eorLine post2 off acc fl hp hname]
      exact ⟨rfl, fun entries h => by rw [collect_columns_loop]; exact h⟩
  | cons l pre2 ih =>
    intro off acc
    simp only [List.cons_append, collect_columns_loop]
    cases hp : parseLine l with
    | none => exact ⟨rfl, fun entries h => absurd h (by simp)⟩
    | some fl =>
      by_cases hne : fl.name = "EOR"
      · simp only [hne, if_true]
        exact ⟨trivial, fun entries h => h⟩
      · simp only [hne, if_false]
        exact ih (off + fl.len) (entryOf ch off fl :: acc)

/-- Witness for C6 at the descriptor `NAME,10 / EOR,0 / ADDR,20`: the result
ignores the `ADDR,20` line after the sentinel and equals the result of the
`NAME,10` prefix alone. -/
theorem eor_sentinel_stops_parsing_witness :
    (pyUpper ((pySplitComma "EOR,0").headD "") = "EOR") ∧
    (collect_columns_loop ∅ (["NAME,10"] ++ "EOR,0" :: ["ADDR,20"]) 0 [] =
       collect_columns_loop ∅ (["NAME,10"] ++ "EOR,0" :: []) 0 [] ∧
     (∀ entries,
        collect_columns_loop ∅ (["NAME,10"] ++ "EOR,0" :: ["ADDR,20"]) 0 [] = .ok entries →
        collect_columns_loop ∅ ["NAME,10"] 0 [] = .ok entries)) :=
  ⟨by decide,
   eor_sentinel_stops_parsing ∅ ["NAME,10"] "EOR,0" ["ADDR,20"] [] (by decide) 0 []⟩

theorem collect_columns_loop_bad_line (ch : Finset String) (badLine : String)
    (post : List String) (hbad : parseLine badLine = none) :
    ∀ (pre : List String), (∀ l ∈ pre, noEorLine l = true) →
    ∀ (off : Int) (acc : List ColEntry),
      collect_columns_loop ch (pre ++ badLine :: post) off acc = .parseError := by
  intro pre
  induction pre with
  | nil =>
    intro _ off acc
    exact collect_columns_loop_err ch badLine post off acc hbad
  | cons l pre2 ih =>
    intro hpre off acc
    simp only [List.cons_append, collect_columns_loop]
    cases hp : parseLine l with
    | none => rfl
    | some fl =>
      have hne : fl.name ≠ "EOR" := by
        have := hpre l (by simp)
        rw [noEorLine, hp] at this
        simpa using this
      simp only [hne, if_false]
      exact ih (fun x hx => hpre x (by simp [hx])) (off + fl.len)
        (entryOf ch off fl :: acc)

/-- C9: the loop body computes `int(parts[1])` before testing the name
against the sentinel `EOR`, so a terminating line must itself carry a
parseable integer second field.  A bare `EOR` line (no comma) and an
`EOR,x` line with a non-integer second field both fail to parse, and a
descriptor whose first sentinel-looking line is such a line ends in the
fatal parse error, not in a normal end of record. -/
theorem eor_line_needs_integer_length (ch : Finset String)
    (pre post : List String) (badLine : String)
    (hpre : ∀ l ∈ pre, noEorLine l = true)
    (hbad : parseLine badLine = none) :
    parseLine "EOR" = none ∧
    parseLine "EOR,x" = none ∧
    collect_columns_loop ch (pre ++ badLine :: post) 0 [] = .parseError :=
  ⟨by decide, by decide,
   collect_columns_loop_bad_line ch badLine post hbad pre hpre 0 []⟩

/-- Witness for C9: the descriptor `NAME,10 / EOR / ADDR,20` (the sentinel
line carries no length field) is a fatal parse error. -/
theorem eor_line_needs_integer_length_witness :
    (∀ l ∈ ["NAME,10"], noEorLine l = true) ∧
    parseLine "EOR" = none ∧
    (parseLine "EOR" = none ∧ parseLine "EOR,x" = none ∧
     collect_columns_loop ∅ (["NAME,10"] ++ "EOR" :: ["ADDR,20"]) 0 [] = .parseError) :=
  ⟨by decide, by decide,
   eor_line_needs_integer_length ∅ ["NAME,10"] ["ADDR,20"] "EOR"
     (by decide) (by decide)⟩

theorem shiftEntry_name (d : Int) (e : ColEntry) : (shiftEntry d e).name = e.name := rfl

theorem allColumnsOf_cons (e : ColEntry) (es : List ColEntry) :
    allColumnsOf (e :: es) = insert e.name (allColumnsOf es) := by
  simp [allColumnsOf]

theorem allColumnsOf_map_shift (d : Int) (es : List ColEntry) :
    allColumnsOf (List.map (shiftEntry d) es) = allColumnsOf es := by
  induction es with
  | nil => rfl
  | cons a t ih => simp only [List.map_cons, allColumnsOf_cons, shiftEntry_name, ih]

theorem reportEquiv_refl (r : LoopResult) : ReportEquiv r r := by
  cases r <;> simp [ReportEquiv]

theorem reportEquiv_trans (r1 r2 r3 : LoopResult)
    (h1 : ReportEquiv r1 r2) (h2 : ReportEquiv r2 r3) : ReportEquiv r1 r3 := by
  cases r1 <;> cases r2 <;> cases r3 <;> simp_all [ReportEquiv]

theorem reportEquiv_prepend (e : ColEntry) (r1 r2 : LoopResult)
    (h : ReportEquiv r1 r2) :
    ReportEquiv (LoopResult.prepend [e] r1) (LoopResult.prepend [e] r2) := by
  cases r1 <;> cases r2 <;>
    simp_all [ReportEquiv, LoopResult.prepend, allColumnsOf_cons]

theorem reportOf_congr (db : Finset String) (r1 r2 : LoopResult)
    (h : ReportEquiv r1 r2) : reportOf db r1 = reportOf db r2 := by
  cases r1 <;> cases r2 <;> simp_all [ReportEquiv, reportOf]

theorem noEor_of_parse (l : String) (fl : FmtLine)
    (hp : parseLine l = some fl) (hno : noEorLine l = true) : fl.name ≠ "EOR" := by
  rw [noEorLine, hp] at hno
  simpa using hno

theorem collect_columns_loop_perm (ch : Finset String) (l1 l2 : List String)
    (hperm : l1.Perm l2) :
    (∀ l ∈ l1, noEorLine l = true) →
    ∀ (rest : List String) (off : Int),
      ReportEquiv (collect_columns_loop ch (l1 ++ rest) off [])
        (collect_columns_loop ch (l2 ++ rest) off []) := by
  induction hperm with
  | nil =>
    intro _ rest off
    exact reportEquiv_refl _
  | cons x h ih =>
    intro hno rest off
    simp only [List.cons_append]
    cases hp : parseLine x with
    | none =>
      rw [collect_columns_loop_err ch x _ off [] hp,
          collect_columns_loop_err ch x _ off [] hp]
      exact trivial
    | some fl =>
      have hne : fl.name ≠ "EOR" := noEor_of_parse x fl hp (hno x (by simp))
      rw [collect_columns_loop_cons ch x _ off fl hp hne,
          collect_columns_loop_cons ch x _ off fl hp hne]
      exact reportEquiv_prepend _ _ _
        (ih (fun l hl => hno l (by simp [hl])) rest (off + fl.len))
  | swap x y t =>
    intro hno rest off
    simp only [List.cons_append]
    cases hpy : parseLine y with
    | none =>
      rw [collect_columns_loop_err ch y _ off [] hpy]
      cases hpx : parseLine x with
      | none =>
        rw [collect_columns_loop_err ch x _ off [] hpx]
        exact trivial
      | some flx =>
        have hnex : flx.name ≠ "EOR" := noEor_of_parse x flx hpx (hno x (by simp))
        rw [collect_columns_loop_cons ch x _ off flx hpx hnex,
            collect_columns_loop_err ch y _ (off + flx.len) [] hpy]
        exact trivial
    | some fly =>
      have hney : fly.name ≠ "EOR" := noEor_of_parse y fly hpy (hno y (by simp))
      rw [collect_columns_loop_cons ch y _ off fly hpy hney]
      cases hpx : parseLine x with
      | none =>
        rw [collect_columns_loop_err ch x _ (off + fly.len) [] hpx,
            collect_columns_loop_err ch x _ off [] hpx]
        exact trivial
      | some flx =>
        have hnex : flx.name ≠ "EOR" := noEor_of_parse x flx hpx (hno x (by simp))
        rw [collect_columns_loop_cons ch x _ (off + fly.len) flx hpx hnex,
            collect_columns_loop_cons ch x _ off flx hpx hnex,
            collect_columns_loop_cons ch y _ (off + flx.len) fly hpy hney]
        have harith : off + fly.len + flx.len = off + flx.len + fly.len := by ring
        rw [harith]
        cases hrr : collect_columns_loop ch (t ++ rest) (off + flx.len + fly.len) [] with
        | parseError => simp [LoopResult.prepend, ReportEquiv]
        | ok tt =>
          simp only [LoopResult.prepend, ReportEquiv, List.singleton_append]
          rw [allColumnsOf_cons, allColumnsOf_cons, allColumnsOf_cons, allColumnsOf_cons]
          exact Finset.Insert.comm _ _ _
  | trans h12 h23 ih12 ih23 =>
    intro hno rest off
    refine reportEquiv_trans _ _ _ (ih12 hno rest off) (ih23 ?_ rest off)
    intro l hl
    exact hno l (h12.mem_iff.mpr hl)

/-- Counterexample to C7 as stated: permuting descriptor lines can move a
line past the `EOR` sentinel.  For the descriptor `NAME,10 / EOR,0 /
ADDR,20` with authoritative set `{NAME}` no discrepancy is reported (the
`ADDR,20` line sits after the sentinel and is never read), but the permuted
descriptor `ADDR,20 / NAME,10 / EOR,0` reports the discrepancy `{ADDR}`. -/
theorem reconciliation_perm_counterexample :
    (["NAME,10", "EOR,0", "ADDR,20"] : List String).Perm
      ["ADDR,20", "NAME,10", "EOR,0"] ∧
    reportsDiscrepancy ∅ {"NAME"} ["NAME,10", "EOR,0", "ADDR,20"] = false ∧
    reportsDiscrepancy ∅ {"NAME"} ["ADDR,20", "NAME,10", "EOR,0"] = true := by
  refine ⟨by decide, by decide, by decide⟩

/-- C7 (amended): reconciliation is order-independent over the lines that
precede the first `EOR` sentinel.  Permuting any block of lines none of
which is a successfully parsed sentinel, while keeping whatever follows the
block in place, does not change whether a discrepancy is reported. -/
theorem reconciliation_perm_invariant (ch db : Finset String)
    (pre pre2 rest : List String) (hperm : pre.Perm pre2)
    (hno : ∀ l ∈ pre, noEorLine l = true) :
    reportsDiscrepancy ch db (pre ++ rest) = reportsDiscrepancy ch db (pre2 ++ rest) := by
  unfold reportsDiscrepancy
  exact reportOf_congr db _ _ (collect_columns_loop_perm ch pre pre2 hperm hno rest 0)

/-- Witness for the amended C7: swapping the two data lines of
`NAME,10 / ADDR,20 / EOR,0` leaves the discrepancy report unchanged. -/
theorem reconciliation_perm_invariant_witness :
    (["NAME,10", "ADDR,20"] : List String).Perm ["ADDR,20", "NAME,10"] ∧
    (∀ l ∈ ["NAME,10", "ADDR,20"], noEorLine l = true) ∧
    reportsDiscrepancy ∅ {"NAME"} (["NAME,10", "ADDR,20"] ++ ["EOR,0"]) =
      reportsDiscrepancy ∅ {"NAME"} (["ADDR,20", "NAME,10"] ++ ["EOR,0"]) :=
  ⟨by decide, by decide,
   reconciliation_perm_invariant ∅ {"NAME"} ["NAME,10", "ADDR,20"]
     ["ADDR,20", "NAME,10"] ["EOR,0"] (by decide) (by decide)⟩

theorem entryOf_shift (ch : Finset String) (off d : Int) (fl : FmtLine) :
    entryOf ch (off + d) fl = shiftEntry d (entryOf ch off fl) := by
  have h1 : off + d + 1 = off + 1 + d := by ring
  have h2 : off + d + fl.len = off + fl.len + d := by ring
  simp [entryOf, shiftEntry, h1, h2]

theorem collect_columns_loop_shift (ch : Finset String) :
    ∀ (lines : List String) (off d : Int),
      collect_columns_loop ch lines (off + d) [] =
        LoopResult.mapOk (List.map (shiftEntry d)) (collect_columns_loop ch lines off []) := by
  intro lines
  induction lines with
  | nil =>
    intro off d
    simp [collect_columns_loop, LoopResult.mapOk]
  | cons l rest ih =>
    intro off d
    cases hp : parseLine l with
    | none =>
      rw [collect_columns_loop_err ch l rest (off + d) [] hp,
          collect_columns_loop_err ch l rest off [] hp]
      rfl
    | some fl =>
      by_cases hne : fl.name = "EOR"
      · rw [collect_columns_loop_eor ch l rest (off + d) [] fl hp hne,
            collect_columns_loop_eor ch l rest off [] fl hp hne]
        rfl
      · rw [collect_columns_loop_cons ch l rest (off + d) fl hp hne,
            collect_columns_loop_cons ch l rest off fl hp hne]
        have harith : off + d + fl.len = off + fl.len + d := by ring
        rw [harith, ih (off + fl.len) d, entryOf_shift]
        cases collect_columns_loop ch rest (off + fl.len) [] with
        | ok t => simp [LoopResult.prepend, LoopResult.mapOk]
        | parseError => rfl

theorem allColumnsOf_append (a b : List ColEntry) :
    allColumnsOf (a ++ b) = allColumnsOf a ∪ allColumnsOf b := by
  simp [allColumnsOf]

theorem collect_columns_loop_dup (ch : Finset String) (l : String) (fl : FmtLine)
    (hl : parseLine l = some fl) (hne : fl.name ≠ "EOR") (post : List String) :
    ∀ (pre : List String), (∀ p ∈ pre, noEorLine p = true) →
    ∀ (off : Int),
      (collect_columns_loop ch (pre ++ l :: l :: post) off [] = .parseError ∧
       collect_columns_loop ch (pre ++ l :: post) off [] = .parseError) ∨
      (∃ front e tail,
        collect_columns_loop ch (pre ++ l :: l :: post) off [] =
          .ok (front ++ e :: shiftEntry e.len e :: List.map (shiftEntry e.len) tail) ∧
        collect_columns_loop ch (pre ++ l :: post) off [] = .ok (front ++ e :: tail) ∧
        e.name = fl.name ∧ e.len = fl.len) := by
  intro pre
  induction pre with
  | nil =>
    intro _ off
    simp only [List.nil_append]
    rw [collect_columns_loop_cons ch l (l :: post) off fl hl hne,
        collect_columns_loop_cons ch l post off fl hl hne,
        collect_columns_loop_cons ch l post (off + fl.len) fl hl hne,
        collect_columns_loop_shift ch post (off + fl.len) fl.len]
    cases ht : collect_columns_loop ch post (off + fl.len) [] with
    | parseError => exact Or.inl ⟨rfl, rfl⟩
    | ok t =>
      refine Or.inr ⟨[], entryOf ch off fl, t, ?_, rfl, rfl, rfl⟩
      have he : entryOf ch (off + fl.len) fl =
          shiftEntry (entryOf ch off fl).len (entryOf ch off fl) :=
        entryOf_shift ch off fl.len fl
      rw [he]
      rfl
  | cons p pre2 ih =>
    intro hpre off
    simp only [List.cons_append]
    cases hp : parseLine p with
    | none =>
      rw [collect_columns_loop_err ch p _ off [] hp,
          collect_columns_loop_err ch p _ off [] hp]
      exact Or.inl ⟨rfl, rfl⟩
    | some fp =>
      have hnep : fp.name ≠ "EOR" := noEor_of_parse p fp hp (hpre p (by simp))
      rw [collect_columns_loop_cons ch p _ off fp hp hnep,
          collect_columns_loop_cons ch p _ off fp hp hnep]
      rcases ih (fun x hx => hpre x (by simp [hx])) (off + fp.len) with
        ⟨h2, h1⟩ | ⟨front, e, tail, h2, h1, hn, hl2⟩
      · rw [h2, h1]
        exact Or.inl ⟨rfl, rfl⟩
      · rw [h2, h1]
        exact Or.inr ⟨entryOf ch off fp :: front, e, tail, by simp [LoopResult.prepend],
          by simp [LoopResult.prepend], hn, hl2⟩

/-- C10: reconciliation compares only the set of parsed names, so doubling a
descriptor line changes nothing about whether a discrepancy is reported,
while the parsed entry sequence (hence both rendered fragments) gains a
second occurrence of the column, adjacent to the first, whose offset range
is shifted by exactly the column's length, with every later column shifted
by the same amount (both occurrences contribute to the cumulative offsets). -/
theorem duplicate_column_lines (ch db : Finset String) (pre post : List String)
    (l : String) (fl : FmtLine)
    (hl : parseLine l = some fl) (hne : fl.name ≠ "EOR")
    (hpre : ∀ p ∈ pre, noEorLine p = true) :
    reportsDiscrepancy ch db (pre ++ l :: l :: post) =
      reportsDiscrepancy ch db (pre ++ l :: post) ∧
    (∀ entries2,
      collect_columns_loop ch (pre ++ l :: l :: post) 0 [] = .ok entries2 →
      ∃ front e tail,
        entries2 = front ++ e :: shiftEntry e.len e :: List.map (shiftEntry e.len) tail ∧
        collect_columns_loop ch (pre ++ l :: post) 0 [] = .ok (front ++ e :: tail) ∧
        e.name = fl.name ∧ e.len = fl.len ∧
        entries2.length = (front ++ e :: tail).length + 1) := by
  have hd := collect_columns_loop_dup ch l fl hl hne post pre hpre 0
  constructor
  · unfold reportsDiscrepancy
    rcases hd with ⟨h2, h1⟩ | ⟨front, e, tail, h2, h1, hn, hl2⟩
    · rw [h2, h1]
    · rw [h2, h1]
      apply reportOf_congr
      simp only [ReportEquiv, allColumnsOf_append, allColumnsOf_cons,
        shiftEntry_name, allColumnsOf_map_shift, Finset.insert_idem]
  · intro entries2 hok
    rcases hd with ⟨h2, h1⟩ | ⟨front, e, tail, h2, h1, hn, hl2⟩
    · rw [h2] at hok
      cases hok
    · rw [h2] at hok
      have heq : front ++ e :: shiftEntry e.len e :: List.map (shiftEntry e.len) tail =
          entries2 := by
        injection hok
      refine ⟨front, e, tail, heq.symm, h1, hn, hl2, ?_⟩
      rw [← heq]
      simp only [List.length_append, List.length_cons, List.length_map]
      omega

/-- Witness for C10: doubling the line `NAME,10` in the descriptor
`ADDR,20 / NAME,10 / EOR,0` with authoritative set `{ADDR, NAME}` leaves
the discrepancy report unchanged, and the doubled run carries the extra
`NAME` entry at the shifted range `21+10 .. 30+10`. -/
theorem duplicate_column_lines_witness :
    (parseLine "NAME,10" = some { name := "NAME", len := 10 }) ∧
    (reportsDiscrepancy ∅ {"ADDR", "NAME"} (["ADDR,20"] ++ "NAME,10" :: "NAME,10" :: ["EOR,0"]) =
      reportsDiscrepancy ∅ {"ADDR", "NAME"} (["ADDR,20"] ++ "NAME,10" :: ["EOR,0"]) ∧
    (∀ entries2,
      collect_columns_loop ∅ (["ADDR,20"] ++ "NAME,10" :: "NAME,10" :: ["EOR,0"]) 0 [] =
        .ok entries2 →
      ∃ front e tail,
        entries2 = front ++ e :: shiftEntry e.len e :: List.map (shiftEntry e.len) tail ∧
        collect_columns_loop ∅ (["ADDR,20"] ++ "NAME,10" :: ["EOR,0"]) 0 [] =
          .ok (front ++ e :: tail) ∧
        e.name = ({ name := "NAME", len := 10 } : FmtLine).name ∧
        e.len = ({ name := "NAME", len := 10 } : FmtLine).len ∧
        entries2.length = (front ++ e :: tail).length + 1)) :=
  ⟨by decide,
   duplicate_column_lines ∅ {"ADDR", "NAME"} ["ADDR,20"] ["EOR,0"] "NAME,10"
     { name := "NAME", len := 10 } (by decide) (by decide) (by decide)⟩

/-- Counterexample to C3 as stated: `expand_args` interpolates the affiliate
acronym verbatim (`f'NEW_MEMBER_{affiliate_acronym}_EXT'`), without
upper-casing it: for the acronym `abc` the generated table name is
`NEW_MEMBER_abc_EXT`, not `NEW_MEMBER_ABC_EXT`. -/
theorem table_name_counterexample :
    table_name_of "abc" = "NEW_MEMBER_abc_EXT" ∧
    pyUpper "abc" = "ABC" ∧
    table_name_of "abc" ≠ "NEW_MEMBER_" ++ pyUpper "abc" ++ "_EXT" := by
  refine ⟨by decide, by decide, by decide⟩

/-- C3 (amended): the generated table name is `NEW_MEMBER_` followed by the
affiliate acronym exactly as given on the command line followed by `_EXT`,
and the generated DDL opens with `CREATE TABLE` applied to that name. -/
theorem table_name_amended (affiliate_acronym directory_name wl wo : String) :
    table_name_of affiliate_acronym = "NEW_MEMBER_" ++ affiliate_acronym ++ "_EXT" ∧
    ∃ rest, gen_ddl_text affiliate_acronym directory_name wl wo =
      ("CREATE TABLE " ++ table_name_of affiliate_acronym) ++ rest := by
  refine ⟨rfl, ?_⟩
  refine ⟨"\n  (" ++ (wl ++ ("\n  )\n  ORGANIZATION EXTERNAL\n   (TYPE ORACLE_LOADER\n    DEFAULT DIRECTORY " ++
    (directory_name ++ ("\n    ACCESS PARAMETERS\n    ( records delimited by newline\n      badfile " ++
    (directory_name ++ (":\x27" ++ (pyLower (table_name_of affiliate_acronym) ++
    (".bad\x27\n      logfile " ++ (directory_name ++ (":\x27" ++
    (pyLower (table_name_of affiliate_acronym) ++ (".log\x27\n      fields\n      (" ++
    (wo ++ (")\n    )\n    LOCATION\n    ( \x27" ++ (pyLower affiliate_acronym ++
    "_good.txt\x27\n    )\n  )\n  REJECT LIMIT UNLIMITED\n"))))))))))))))), ?_⟩
  simp [gen_ddl_text, renderTemplate, String.append_assoc]

/-- C2: whenever the run reaches reconciliation and the parsed column-name
set differs from the authoritative set, `collect_columns` takes the
discrepancy abort (print the names, `exit()`): the run produces no DDL
text, never reaches the `create_or_replace_external_table` procedure, and
terminates (with the default `exit()` status 0) after emitting the
message. -/
theorem discrepancy_hard_gate (env : Env) (lines : List String)
    (entries : List ColEntry)
    (h1 : env.dbconfigExists = true) (h2 : env.hasDatabaseSection = true)
    (h3 : env.hasAllOptions = true) (h4 : env.connectFails = false)
    (h5 : env.charQueryFails = false) (h6 : env.allColumnsQueryFails = false)
    (hd : env.descriptor = some lines)
    (hok : collect_columns_loop env.char_columns lines 0 [] = .ok entries)
    (hdiff : pySymmDiff env.db_columns (allColumnsOf entries) ≠ ∅) :
    collect_columns env.descriptor env.char_columns env.db_columns =
      .discrepancyAbort (pySymmDiff env.db_columns (allColumnsOf entries)) ∧
    (runProgram env).ddl = none ∧
    Event.createTableProc ∉ (runProgram env).events ∧
    (runProgram env).messaged = true ∧
    (runProgram env).exitCode = 0 := by
  have hcc : collect_columns env.descriptor env.char_columns env.db_columns =
      .discrepancyAbort (pySymmDiff env.db_columns (allColumnsOf entries)) := by
    rw [hd]
    simp only [collect_columns]
    rw [hok]
    simp [hdiff]
  refine ⟨hcc, ?_⟩
  unfold runProgram
  rw [hcc]
  simp [h1, h2, h3, h4, h5, h6]

/-- Witness for C2: with authoritative set `{NAME, ADDR, PHONE}` and the
descriptor `NAME,10 / ADDR,20 / EOR,0`, the discrepancy `{PHONE}` aborts
the run with no DDL and no procedure call. -/
theorem discrepancy_hard_gate_witness :
    (pySymmDiff ({"NAME", "ADDR", "PHONE"} : Finset String)
        (allColumnsOf sampleEntries) ≠ ∅) ∧
    (collect_columns ({ baseEnv with db_columns := {"NAME", "ADDR", "PHONE"} }).descriptor
        ({ baseEnv with db_columns := {"NAME", "ADDR", "PHONE"} }).char_columns
        ({ baseEnv with db_columns := {"NAME", "ADDR", "PHONE"} }).db_columns =
      .discrepancyAbort (pySymmDiff
        ({ baseEnv with db_columns := {"NAME", "ADDR", "PHONE"} }).db_columns
        (allColumnsOf sampleEntries)) ∧
    (runProgram { baseEnv with db_columns := {"NAME", "ADDR", "PHONE"} }).ddl = none ∧
    Event.createTableProc ∉
      (runProgram { baseEnv with db_columns := {"NAME", "ADDR", "PHONE"} }).events ∧
    (runProgram { baseEnv with db_columns := {"NAME", "ADDR", "PHONE"} }).messaged = true ∧
    (runProgram { baseEnv with db_columns := {"NAME", "ADDR", "PHONE"} }).exitCode = 0) :=
  ⟨by decide,
   discrepancy_hard_gate { baseEnv with db_columns := {"NAME", "ADDR", "PHONE"} }
     ["NAME,10", "ADDR,20", "EOR,0"] sampleEntries
     rfl rfl rfl rfl rfl rfl rfl (by decide) (by decide)⟩

/-- Counterexample to C4 as stated: a missing configuration file is a
failure path (`log_and_quit` logs the message and calls `sys.exit()` with
no argument), yet the interpreter then terminates with status 0, not with
a non-zero-equivalent status. -/
theorem failure_exit_status_counterexample :
    (runProgram { baseEnv with dbconfigExists := false }).messaged = true ∧
    (runProgram { baseEnv with dbconfigExists := false }).ddl = none ∧
    (runProgram { baseEnv with dbconfigExists := false }).exitCode = 0 := by
  refine ⟨by decide, by decide, by decide⟩

/-- C4 (amended): on every failure path the program terminates with a
descriptive message — no error is silently swallowed — but the termination
status is 0 for the `log_and_quit` and discrepancy-`exit()` paths (only an
uncaught collaborator exception yields a non-zero status). -/
theorem failures_always_messaged (env : Env)
    (hfail : (runProgram env).ddl = none ∨ (runProgram env).exitCode ≠ 0) :
    (runProgram env).messaged = true := by
  obtain ⟨aff, so, dbe, hds, hao, dir, cf, cqf, aqf, desc, cc, dbc, cpf⟩ := env
  simp only [runProgram] at hfail ⊢
  cases dbe <;> cases hds <;> cases hao <;> cases cf <;> cases cqf <;> cases aqf <;>
    cases so <;> cases cpf <;>
    rcases hcoll : collect_columns desc cc dbc with ⟨wl, wo⟩ | _ | d <;>
    simp_all

/-- Witness for the amended C4: a malformed descriptor line (`BAD`, no
length field) is a failure path and the run emits a message. -/
theorem failures_always_messaged_witness :
    ((runProgram { baseEnv with descriptor := some ["BAD"] }).ddl = none ∨
      (runProgram { baseEnv with descriptor := some ["BAD"] }).exitCode ≠ 0) ∧
    (runProgram { baseEnv with descriptor := some ["BAD"] }).messaged = true :=
  ⟨Or.inl (by decide),
   failures_always_messaged { baseEnv with descriptor := some ["BAD"] }
     (Or.inl (by decide))⟩

/-- Counterexample to C8 as stated: `gen_ddl` issues both schema queries
(lines 134-135) before `collect_columns` first touches the descriptor file
(line 138), so with a missing descriptor the run still performs both
schema accesses before aborting. -/
theorem missing_descriptor_counterexample :
    (runProgram { baseEnv with descriptor := none }).events =
      [Event.charSemanticsQuery, Event.allColumnsQuery, Event.openDescriptor] ∧
    Event.charSemanticsQuery ∈ (runProgram { baseEnv with descriptor := none }).events ∧
    Event.allColumnsQuery ∈ (runProgram { baseEnv with descriptor := none }).events ∧
    (runProgram { baseEnv with descriptor := none }).ddl = none := by
  refine ⟨by decide, by decide, by decide, by decide⟩

/-- C8 (amended): if the descriptor file is missing the run aborts with a
logged message, no DDL produced and no DDL applied — but only after both
the character-semantics query and the full-column-set query have been
issued. -/
theorem missing_descriptor_aborts (env : Env)
    (h1 : env.dbconfigExists = true) (h2 : env.hasDatabaseSection = true)
    (h3 : env.hasAllOptions = true) (h4 : env.connectFails = false)
    (h5 : env.charQueryFails = false) (h6 : env.allColumnsQueryFails = false)
    (hd : env.descriptor = none) :
    (runProgram env).events =
      [Event.charSemanticsQuery, Event.allColumnsQuery, Event.openDescriptor] ∧
    (runProgram env).ddl = none ∧
    Event.createTableProc ∉ (runProgram env).events ∧
    (runProgram env).messaged = true ∧
    (runProgram env).exitCode = 0 := by
  have hcc : collect_columns env.descriptor env.char_columns env.db_columns =
      .parseAbort := by
    rw [hd]
    rfl
  unfold runProgram
  rw [hcc]
  simp [h1, h2, h3, h4, h5, h6]

/-- Witness for the amended C8 at the concrete healthy environment with the
descriptor file removed. -/
theorem missing_descriptor_aborts_witness :
    ({ baseEnv with descriptor := none } : Env).descriptor = none ∧
    ((runProgram { baseEnv with descriptor := none }).events =
       [Event.charSemanticsQuery, Event.allColumnsQuery, Event.openDescriptor] ∧
     (runProgram { baseEnv with descriptor := none }).ddl = none ∧
     Event.createTableProc ∉ (runProgram { baseEnv with descriptor := none }).events ∧
     (runProgram { baseEnv with descriptor := none }).messaged = true ∧
     (runProgram { baseEnv with descriptor := none }).exitCode = 0) :=
  ⟨rfl,
   missing_descriptor_aborts { baseEnv with descriptor := none }
     rfl rfl rfl rfl rfl rfl rfl⟩
